import Mathlib

/-! Verification of the `remove_unregistered` cleanup utility.

The source program is a single Rust file.  We give a shallow embedding of
its filesystem-facing logic: the filesystem is a finite association list
from absolute paths (component lists) to node kinds, removal operations
are pure state transformers that also record an event trace, and Rust
panics (a failed `assert!` or `unwrap`) are modelled as an
`integrityFault` outcome that, at the driver level, stops the whole batch
(a panic aborts the process), while `io::Result` errors are propagated to
the per-torrent handler, which reports and squashes them.

Modelling conventions:
* path strings are split on the separator character; empty and `.`
  components are dropped (the inputs considered contain neither);
* `canonicalize` resolves `..` lexically and fails when the resulting
  path does not exist in the filesystem (the paths traversed are assumed
  not to cross symlinks);
* tilde expansion and the RPC layer are out of scope: the torrent record
  already carries the expanded path strings and the declared file list;
* the `frozen` set of a filesystem holds paths whose removal fails with a
  filesystem error (modelling e.g. lack of permissions);
* the source collects implied directories in a hash set and sorts with an
  unstable sort; the embedding uses a deterministic first-occurrence
  dedup and insertion sort by the same key, a deterministic refinement
  (no claim depends on the order of equal-length directories).
-/

inductive NodeType where
  | file
  | dir
  | symlink
deriving DecidableEq, Repr

/-- A filesystem: a finite map from absolute paths (component lists) to
node kinds, plus the set of paths whose removal fails with a filesystem
error. -/
structure FS where
  nodes : List (List String × NodeType)
  frozen : List (List String)
deriving DecidableEq, Repr

def fsLookup (fs : FS) (p : List String) : Option NodeType :=
  List.lookup p fs.nodes

def fsRemove (fs : FS) (p : List String) : FS :=
  { fs with nodes := fs.nodes.filter (fun e => !(e.1 == p)) }

def isFrozen (fs : FS) (p : List String) : Bool :=
  fs.frozen.contains p

/-- Componentwise: the second list is a leading segment of the first
(`Path::starts_with` on two absolute paths). -/
def listStartsWith : List String → List String → Bool
  | _, [] => true
  | [], _ :: _ => false
  | a :: l, b :: m => a == b && listStartsWith l m

/-- Whether directory `p` still has an entry strictly below it. -/
def dirNonempty (fs : FS) (p : List String) : Bool :=
  fs.nodes.any (fun e => listStartsWith e.1 p && !(e.1 == p))

/-- Removal events, in the order the filesystem operations happen. -/
inductive Ev where
  | rmFile (p : List String)
  | rmDir (p : List String)
deriving DecidableEq, Repr

structure St where
  fs : FS
  evs : List Ev
deriving DecidableEq, Repr

inductive RmError where
  | integrityFault
  | notFound
  | fsError
deriving DecidableEq, Repr

/-- The outcome of a removal step: both branches carry the state reached,
so that partial deletions before a failure stay observable. -/
inductive Outcome where
  | ok (s : St)
  | fault (e : RmError) (s : St)
deriving DecidableEq, Repr

/-- `std::fs::remove_file`: unlinks a file or a symlink; fails on a
directory, on a missing path, and on a frozen path. -/
def rmFileOp (s : St) (p : List String) : Outcome :=
  if isFrozen s.fs p then .fault .fsError s
  else
    match fsLookup s.fs p with
    | some NodeType.dir => .fault .fsError s
    | some _ => .ok ⟨fsRemove s.fs p, s.evs ++ [Ev.rmFile p]⟩
    | none => .fault .notFound s

/-- `std::fs::remove_dir`: removes an empty directory; fails on a
non-directory, a nonempty directory, a missing path, and a frozen path. -/
def rmDirOp (s : St) (p : List String) : Outcome :=
  if isFrozen s.fs p then .fault .fsError s
  else
    match fsLookup s.fs p with
    | some NodeType.dir =>
        if dirNonempty s.fs p then .fault .fsError s
        else .ok ⟨fsRemove s.fs p, s.evs ++ [Ev.rmDir p]⟩
    | some _ => .fault .fsError s
    | none => .fault .notFound s

/-- One descriptor-removal step: `if p.exists() \x7b remove_file(p)?; \x7d` —
a missing descriptor is silently skipped. -/
def removeDescriptor (s : St) (p : List String) : Outcome :=
  if (fsLookup s.fs p).isSome then rmFileOp s p else .ok s

/-- Removal of the watch and session descriptor files, in source order. -/
def removeDescriptors (s : St) (w sess : List String) : Outcome :=
  match removeDescriptor s w with
  | .ok s1 => removeDescriptor s1 sess
  | .fault e s1 => .fault e s1

/-- Split a character list on the separator. -/
def compsAux (cur : List Char) : List Char → List (List Char)
  | [] => [cur.reverse]
  | ch :: rest =>
      if ch = '/' then cur.reverse :: compsAux [] rest
      else compsAux (ch :: cur) rest

/-- The components of a path string (`Path::components`, with empty and
current-directory components dropped). -/
def pathComps (s : String) : List String :=
  ((compsAux [] s.data).map (fun l => String.mk l)).filter
    (fun c => !(c == "") && !(c == "."))

/-- `Path::is_absolute` (on Unix: the path has a root). -/
def isAbsStr (s : String) : Bool :=
  match s.data with
  | '/' :: _ => true
  | _ => false

/-- Lexical resolution of `..` components; at the filesystem root `..`
stays at the root. -/
def canonComps (acc : List String) : List String → List String
  | [] => acc.reverse
  | c :: rest =>
      if c == ".." then canonComps acc.tail rest
      else canonComps (c :: acc) rest

/-- `std::fs::canonicalize` on an absolute component list: resolves `..`
and fails when the resulting path does not exist. -/
def canonicalize (fs : FS) (p : List String) : Option (List String) :=
  let q := canonComps [] p
  if (fsLookup fs q).isSome then some q else none

def listEndsWith (a b : List String) : Bool :=
  listStartsWith a.reverse b.reverse

def fullComps (abs : Bool) (comps : List String) : List String :=
  if abs then "/" :: comps else comps

/-- `Path::ends_with`, comparing whole components, with the root
directory acting as a leading component of an absolute path. -/
def pathEndsWith (a : String) (b : String) : Bool :=
  listEndsWith (fullComps (isAbsStr a) (pathComps a))
    (fullComps (isAbsStr b) (pathComps b))

/-- The nonempty strict leading segments of a component list, longest
first: `Path::ancestors().skip(1)` with the empty tail path dropped. -/
def properAncestors (p : List String) : List (List String) :=
  ((List.range (p.length - 1)).reverse).map (fun k => p.take (k + 1))

/-- The byte length of the path string a component list renders to
(`OsStr::len` of the joined relative path). -/
def osLen : List String → Nat
  | [] => 0
  | [a] => a.data.length
  | a :: b :: rest => a.data.length + 1 + osLen (b :: rest)

def insertByLen (d : List String) : List (List String) → List (List String)
  | [] => [d]
  | e :: rest =>
      if osLen e ≤ osLen d then d :: e :: rest
      else e :: insertByLen d rest

/-- Sort by rendered path length, longest first
(`sort_unstable_by_key(|d| -(d.len() as isize))`). -/
def sortByLenDesc : List (List String) → List (List String)
  | [] => []
  | d :: rest => insertByLen d (sortByLenDesc rest)

/-- The implied directories of a declared file list: every proper
ancestor of every entry, deduplicated and sorted longest first. -/
def dirsOf (files : List String) : List (List String) :=
  sortByLenDesc (List.dedup (files.flatMap (fun f => properAncestors (pathComps f))))

/-- The per-file deletion loop of the multi-file branch.  Each entry is
checked to be relative (`assert!(path.is_relative())`), joined onto the
root and canonicalized (`canonicalize().unwrap()`), checked for
containment (`assert!(abspath.starts_with(content))`), and removed. -/
def removeContentFiles (c : List String) (s : St) : List String → Outcome
  | [] => .ok s
  | f :: rest =>
      if isAbsStr f then .fault .integrityFault s
      else
        match canonicalize s.fs (c ++ pathComps f) with
        | none => .fault .integrityFault s
        | some a =>
            if listStartsWith a c then
              match rmFileOp s a with
              | .ok s1 => removeContentFiles c s1 rest
              | .fault e s1 => .fault e s1
            else .fault .integrityFault s

/-- The implied-directory deletion loop: each directory is re-joined,
re-canonicalized, re-checked for containment, and removed. -/
def removeImpliedDirs (c : List String) (s : St) : List (List String) → Outcome
  | [] => .ok s
  | d :: rest =>
      match canonicalize s.fs (c ++ d) with
      | none => .fault .integrityFault s
      | some a =>
          if listStartsWith a c then
            match rmDirOp s a with
            | .ok s1 => removeImpliedDirs c s1 rest
            | .fault e s1 => .fault e s1
          else .fault .integrityFault s

/-- `delete_from_filesystem`: asserts the content root is absolute,
lstats it (`symlink_metadata`), removes the two descriptor files, then
removes the content according to the root's node kind. -/
def delete_from_filesystem (fs : FS) (watched sess content : String)
    (files : List String) : Outcome :=
  let c := pathComps content
  if !(isAbsStr content) then .fault .integrityFault ⟨fs, []⟩
  else
    match fsLookup fs c with
    | none => .fault .notFound ⟨fs, []⟩
    | some ty =>
        match removeDescriptors ⟨fs, []⟩ (pathComps watched) (pathComps sess) with
        | .fault e s => .fault e s
        | .ok s =>
            match ty with
            | NodeType.symlink => rmFileOp s c
            | NodeType.file =>
                match files with
                | [f] =>
                    if pathEndsWith content f then rmFileOp s c
                    else .fault .integrityFault s
                | _ => .fault .integrityFault s
            | NodeType.dir =>
                match removeContentFiles c s files with
                | .fault e s1 => .fault e s1
                | .ok s1 =>
                    match removeImpliedDirs c s1 (dirsOf files) with
                    | .fault e s2 => .fault e s2
                    | .ok s2 => rmDirOp s2 c

/-- One candidate torrent, as the driving loop sees it: the
daemon-reported status message plus the (already tilde-expanded) paths. -/
structure Torrent where
  name : String
  msg : String
  watched : String
  session : String
  content : String
  files : List String
deriving DecidableEq, Repr

/-- The fixed marker the status message is matched against. -/
def unregMarker : String := "Tracker: [Failure reason \"Unregistered torrent"

/-- ASCII lowercasing of a string (`str::to_lowercase`; all inputs the
program compares are ASCII). -/
def lowerStr (s : String) : String := String.mk (s.data.map Char.toLower)

def charListStartsWith : List Char → List Char → Bool
  | _, [] => true
  | [], _ :: _ => false
  | a :: l, b :: m => a == b && charListStartsWith l m

/-- The candidate filter of the main loop:
`msg.to_lowercase().starts_with(marker.to_lowercase())`. -/
def msgQualifies (msg : String) : Bool :=
  charListStartsWith (lowerStr msg).data (lowerStr unregMarker).data

/-- The per-torrent `delete` function: asserts the content path string is
not the filesystem root and longer than one byte, then calls
`delete_from_filesystem`.  Assertion failures are panics, modelled as
`integrityFault`. -/
def deleteTorrent (fs : FS) (t : Torrent) : Outcome :=
  if t.content == "/" then .fault .integrityFault ⟨fs, []⟩
  else if t.content.data.length ≤ 1 then .fault .integrityFault ⟨fs, []⟩
  else delete_from_filesystem fs t.watched t.session t.content t.files

/-- The driving loop of `main`: qualifying torrents are processed in
order; an io-style error from `delete_from_filesystem` is reported and
squashed, while a panic (`integrityFault`) aborts the whole process —
the second component is `false` and later torrents stay unprocessed. -/
def mainLoop (fs : FS) : List Torrent → FS × Bool
  | [] => (fs, true)
  | t :: rest =>
      if msgQualifies t.msg then
        match deleteTorrent fs t with
        | .ok s => mainLoop s.fs rest
        | .fault RmError.integrityFault s => (s.fs, false)
        | .fault _ s => mainLoop s.fs rest
      else mainLoop fs rest

/-! Helper lemmas about the elementary operations. -/

def outcomeSt : Outcome → St
  | .ok s => s
  | .fault _ s => s

theorem rmFileOp_ok_eq {s : St} {p : List String} {s' : St}
    (h : rmFileOp s p = .ok s') :
    s'.fs = fsRemove s.fs p ∧ s'.evs = s.evs ++ [Ev.rmFile p] := by
  unfold rmFileOp at h
  split at h
  · exact absurd h (by simp)
  · split at h
    · exact absurd h (by simp)
    · cases h; exact ⟨rfl, rfl⟩
    · exact absurd h (by simp)

theorem rmFileOp_fault_eq {s : St} {p : List String} {e : RmError} {s' : St}
    (h : rmFileOp s p = .fault e s') : s' = s := by
  unfold rmFileOp at h
  split at h
  · cases h; rfl
  · split at h
    · cases h; rfl
    · exact absurd h (by simp)
    · cases h; rfl

theorem rmDirOp_ok_eq {s : St} {p : List String} {s' : St}
    (h : rmDirOp s p = .ok s') :
    s'.fs = fsRemove s.fs p ∧ s'.evs = s.evs ++ [Ev.rmDir p] := by
  unfold rmDirOp at h
  split at h
  · exact absurd h (by simp)
  · split at h
    · split at h
      · exact absurd h (by simp)
      · cases h; exact ⟨rfl, rfl⟩
    · exact absurd h (by simp)
    · exact absurd h (by simp)

theorem rmDirOp_fault_eq {s : St} {p : List String} {e : RmError} {s' : St}
    (h : rmDirOp s p = .fault e s') : s' = s := by
  unfold rmDirOp at h
  split at h
  · cases h; rfl
  · split at h
    · split at h
      · cases h; rfl
      · exact absurd h (by simp)
    · cases h; rfl
    · cases h; rfl

theorem removeDescriptor_ok_cases {s : St} {p : List String} {s' : St}
    (h : removeDescriptor s p = .ok s') :
    s' = s ∨ (s'.fs = fsRemove s.fs p ∧ s'.evs = s.evs ++ [Ev.rmFile p]) := by
  unfold removeDescriptor at h
  split at h
  · exact Or.inr (rmFileOp_ok_eq h)
  · cases h; exact Or.inl rfl

theorem removeDescriptor_fault_eq {s : St} {p : List String} {e : RmError} {s' : St}
    (h : removeDescriptor s p = .fault e s') : s' = s := by
  unfold removeDescriptor at h
  split at h
  · exact rmFileOp_fault_eq h
  · exact absurd h (by simp)

theorem lookup_filter_ne (l : List (List String × NodeType)) (q p : List String) :
    List.lookup p (l.filter (fun e => !(e.1 == q))) =
      if p = q then none else List.lookup p l := by
  induction l with
  | nil => simp [List.lookup]
  | cons e l ih =>
      rcases e with ⟨k, v⟩
      have hfilter : (((k, v) :: l).filter (fun e => !(e.1 == q))) =
          if k = q then l.filter (fun e => !(e.1 == q))
          else (k, v) :: l.filter (fun e => !(e.1 == q)) := by
        by_cases hq : k = q <;> simp [List.filter_cons, hq]
      rw [hfilter]
      by_cases hq : k = q
      · rw [if_pos hq, ih]
        by_cases hp : p = k
        · rw [if_pos (hp.trans hq), if_pos (hp.trans hq)]
        · have hpq : p ≠ q := fun hc => hp (hc.trans hq.symm)
          rw [if_neg hpq, if_neg hpq]
          have hbk : (p == k) = false := beq_eq_false_iff_ne.mpr hp
          simp [List.lookup, hbk]
      · rw [if_neg hq]
        by_cases hp : p = k
        · have hpq : p ≠ q := fun hc => hq (hp.symm.trans hc)
          have hbk : (p == k) = true := beq_iff_eq.mpr hp
          simp [List.lookup, hbk, if_neg hpq]
        · have hbk : (p == k) = false := beq_eq_false_iff_ne.mpr hp
          simp [List.lookup, hbk, ih]

theorem fsLookup_fsRemove (fs : FS) (q p : List String) :
    fsLookup (fsRemove fs q) p = if p = q then none else fsLookup fs p :=
  lookup_filter_ne fs.nodes q p

theorem fsRemove_frozen (fs : FS) (q : List String) :
    (fsRemove fs q).frozen = fs.frozen := rfl

theorem removeDescriptor_ok_frame {s : St} {p : List String} {s' : St}
    (h : removeDescriptor s p = .ok s') :
    s'.fs.frozen = s.fs.frozen ∧
    ∀ r, r ≠ p → fsLookup s'.fs r = fsLookup s.fs r := by
  rcases removeDescriptor_ok_cases h with h1 | ⟨h1, _⟩
  · subst h1; exact ⟨rfl, fun r _ => rfl⟩
  · rw [h1]
    refine ⟨fsRemove_frozen _ _, fun r hr => ?_⟩
    rw [fsLookup_fsRemove, if_neg hr]

theorem removeDescriptors_ok_frame {s : St} {w sess : List String} {s1 : St}
    (h : removeDescriptors s w sess = .ok s1) :
    s1.fs.frozen = s.fs.frozen ∧
    ∀ r, r ≠ w → r ≠ sess → fsLookup s1.fs r = fsLookup s.fs r := by
  unfold removeDescriptors at h
  cases hw : removeDescriptor s w with
  | ok sm =>
      rw [hw] at h
      have h1 := removeDescriptor_ok_frame hw
      have h2 := removeDescriptor_ok_frame h
      exact ⟨h2.1.trans h1.1,
        fun r hrw hrs => (h2.2 r hrs).trans (h1.2 r hrw)⟩
  | fault e sm => rw [hw] at h; exact absurd h (by simp)

theorem removeDescriptor_ok_evs {s : St} {p : List String} {s' : St}
    (h : removeDescriptor s p = .ok s') :
    ∃ news, s'.evs = s.evs ++ news ∧ ∀ e ∈ news, ∃ q, e = Ev.rmFile q := by
  rcases removeDescriptor_ok_cases h with h1 | ⟨_, h1⟩
  · subst h1; exact ⟨[], by simp⟩
  · exact ⟨[Ev.rmFile p], h1, by simp⟩

theorem removeDescriptors_ok_evs {s : St} {w sess : List String} {s1 : St}
    (h : removeDescriptors s w sess = .ok s1) :
    ∃ news, s1.evs = s.evs ++ news ∧ ∀ e ∈ news, ∃ q, e = Ev.rmFile q := by
  unfold removeDescriptors at h
  cases hw : removeDescriptor s w with
  | ok sm =>
      rw [hw] at h
      obtain ⟨n1, he1, hf1⟩ := removeDescriptor_ok_evs hw
      obtain ⟨n2, he2, hf2⟩ := removeDescriptor_ok_evs h
      refine ⟨n1 ++ n2, by rw [he2, he1, List.append_assoc], fun e he => ?_⟩
      rcases List.mem_append.mp he with h' | h'
      · exact hf1 e h'
      · exact hf2 e h'
  | fault e sm => rw [hw] at h; exact absurd h (by simp)

/-! Concrete filesystems used as test inputs for witnesses and
counterexamples. -/

/-- Scenario A: a single-file torrent at `/data/movie.mkv`. -/
def fsSingle : FS :=
  ⟨[(["data"], NodeType.dir), (["data", "movie.mkv"], NodeType.file)], []⟩

/-- Scenario B: a multi-file torrent below `/data/show`. -/
def fsShow : FS :=
  ⟨[(["data"], NodeType.dir), (["data", "show"], NodeType.dir),
    (["data", "show", "S01"], NodeType.dir),
    (["data", "show", "S01", "e1.mkv"], NodeType.file),
    (["data", "show", "S01", "e2.mkv"], NodeType.file)], []⟩

/-- Scenario C: a content root `/data/show` next to a file the declared
list tries to escape to, with the watch descriptor present. -/
def fsEscape : FS :=
  ⟨[(["data"], NodeType.dir), (["data", "show"], NodeType.dir),
    (["data", "show", "x.mkv"], NodeType.file),
    (["data", "escape.mkv"], NodeType.file),
    (["w.torrent"], NodeType.file)], []⟩

/-- A partially removed tree: the root directory remains but the declared
content file is already gone. -/
def fsHalfGone : FS := ⟨[(["data"], NodeType.dir), (["data", "show"], NodeType.dir)], []⟩

/-- A symlinked content root next to its target directory tree. -/
def fsLink : FS :=
  ⟨[(["data"], NodeType.dir), (["data", "show"], NodeType.symlink),
    (["target"], NodeType.dir), (["target", "deep.mkv"], NodeType.file),
    (["w.torrent"], NodeType.file)], []⟩

/-- The watch descriptor exists but the content root does not. -/
def fsNoRoot : FS := ⟨[(["w.torrent"], NodeType.file)], []⟩

/-- The watch descriptor cannot be removed (permission denied), while the
content tree is intact. -/
def fsFrozenW : FS :=
  ⟨[(["w.torrent"], NodeType.file), (["data"], NodeType.dir),
    (["data", "show"], NodeType.dir),
    (["data", "show", "x.mkv"], NodeType.file)], [["w.torrent"]]⟩

/-! C8: the candidate filter. -/

/-- C8: a torrent is selected for removal exactly when its status
message, lowercased, begins with the lowercased fixed marker
`Tracker: [Failure reason "Unregistered torrent`; a torrent whose
message does not match is skipped with no action at all: the main loop
over the remaining torrents is unchanged. -/
theorem c8_candidate_filter :
    (∀ msg : String, msgQualifies msg =
      charListStartsWith (lowerStr msg).data
        (lowerStr "Tracker: [Failure reason \"Unregistered torrent").data) ∧
    (∀ (fs : FS) (t : Torrent) (rest : List Torrent),
      msgQualifies t.msg = false → mainLoop fs (t :: rest) = mainLoop fs rest) := by
  constructor
  · intro msg; rfl
  · intro fs t rest h
    conv_lhs => rw [mainLoop]
    rw [h]
    simp

theorem c8_candidate_filter_witness :
    msgQualifies "Tracker: timeout was reached" = false ∧
    mainLoop ⟨[], []⟩
        [⟨"n", "Tracker: timeout was reached", "/w", "/s", "/data/x", []⟩] =
      mainLoop ⟨[], []⟩ [] :=
  ⟨by decide,
   c8_candidate_filter.2 ⟨[], []⟩
     ⟨"n", "Tracker: timeout was reached", "/w", "/s", "/data/x", []⟩ []
     (by decide)⟩

/-! C6: symlinked content roots. -/

/-- C6: when the content root lstats as a symlink, the removal deletes
only the link itself (after the two descriptor files), succeeds, leaves
every other path — in particular the link's target and everything
beneath it — untouched, and never inspects the declared file list. -/
theorem c6_symlink_non_recursion
    (fs : FS) (watched sess content : String) (files : List String) (s1 : St)
    (habs : isAbsStr content = true)
    (hty : fsLookup fs (pathComps content) = some NodeType.symlink)
    (hdesc : removeDescriptors ⟨fs, []⟩ (pathComps watched) (pathComps sess) = .ok s1)
    (hlk : fsLookup s1.fs (pathComps content) = some NodeType.symlink)
    (hfz : isFrozen s1.fs (pathComps content) = false) :
    delete_from_filesystem fs watched sess content files =
      .ok ⟨fsRemove s1.fs (pathComps content),
           s1.evs ++ [Ev.rmFile (pathComps content)]⟩ ∧
    (∀ p, p ≠ pathComps content → p ≠ pathComps watched → p ≠ pathComps sess →
      fsLookup (fsRemove s1.fs (pathComps content)) p = fsLookup fs p) ∧
    (∀ files' : List String,
      delete_from_filesystem fs watched sess content files =
        delete_from_filesystem fs watched sess content files') := by
  have hmain : ∀ fl : List String,
      delete_from_filesystem fs watched sess content fl =
        .ok ⟨fsRemove s1.fs (pathComps content),
             s1.evs ++ [Ev.rmFile (pathComps content)]⟩ := by
    intro fl
    simp [delete_from_filesystem, habs, hty, hdesc, rmFileOp, hfz, hlk]
  refine ⟨hmain files, fun p hc hw hs => ?_, fun files' => (hmain files).trans (hmain files').symm⟩
  rw [fsLookup_fsRemove, if_neg hc]
  exact (removeDescriptors_ok_frame hdesc).2 p hw hs

theorem c6_symlink_non_recursion_witness :
    fsLookup fsLink (pathComps "/data/show") = some NodeType.symlink ∧
    (delete_from_filesystem fsLink "/w.torrent" "/s.torrent" "/data/show"
        ["target/deep.mkv"] =
      .ok ⟨fsRemove
            (⟨[(["data"], NodeType.dir), (["data", "show"], NodeType.symlink),
               (["target"], NodeType.dir), (["target", "deep.mkv"], NodeType.file)],
              []⟩ : FS) (pathComps "/data/show"),
           [Ev.rmFile ["w.torrent"]] ++ [Ev.rmFile (pathComps "/data/show")]⟩ ∧
     (∀ p, p ≠ pathComps "/data/show" → p ≠ pathComps "/w.torrent" →
        p ≠ pathComps "/s.torrent" →
        fsLookup (fsRemove
          (⟨[(["data"], NodeType.dir), (["data", "show"], NodeType.symlink),
             (["target"], NodeType.dir), (["target", "deep.mkv"], NodeType.file)],
            []⟩ : FS) (pathComps "/data/show")) p = fsLookup fsLink p) ∧
     (∀ files' : List String,
        delete_from_filesystem fsLink "/w.torrent" "/s.torrent" "/data/show"
            ["target/deep.mkv"] =
          delete_from_filesystem fsLink "/w.torrent" "/s.torrent" "/data/show" files')) :=
  ⟨by decide,
   c6_symlink_non_recursion fsLink "/w.torrent" "/s.torrent" "/data/show"
     ["target/deep.mkv"]
     ⟨⟨[(["data"], NodeType.dir), (["data", "show"], NodeType.symlink),
        (["target"], NodeType.dir), (["target", "deep.mkv"], NodeType.file)], []⟩,
      [Ev.rmFile ["w.torrent"]]⟩
     (by decide) (by decide) (by decide) (by decide) (by decide)⟩

/-! C10: the symlink and regular-file branches perform no per-entry
validation. -/

/-- C10: when the content root is a symlink the declared file list is
never inspected — the run's outcome is the same for every file list —
and in the regular-file branch no relative-path, canonicalization or
containment check is performed: an absolute declared entry that merely
matches the root's trailing components is accepted and the root is
deleted. -/
theorem c10_skip_validation :
    (∀ (fs : FS) (watched sess content : String) (files files' : List String),
      fsLookup fs (pathComps content) = some NodeType.symlink →
      delete_from_filesystem fs watched sess content files =
        delete_from_filesystem fs watched sess content files') ∧
    (isAbsStr "/data/movie.mkv" = true ∧
     delete_from_filesystem fsSingle "/w.torrent" "/s.torrent" "/data/movie.mkv"
         ["/data/movie.mkv"] =
       .ok ⟨⟨[(["data"], NodeType.dir)], []⟩, [Ev.rmFile ["data", "movie.mkv"]]⟩) := by
  constructor
  · intro fs watched sess content files files' hty
    by_cases habs : isAbsStr content = true
    · simp [delete_from_filesystem, habs, hty]
    · have habs' : isAbsStr content = false := by
        cases h : isAbsStr content
        · rfl
        · exact absurd h habs
      simp [delete_from_filesystem, habs']
  · exact ⟨by decide, by decide⟩

theorem c10_skip_validation_witness :
    fsLookup fsLink (pathComps "/data/show") = some NodeType.symlink ∧
    delete_from_filesystem fsLink "/w.torrent" "/s.torrent" "/data/show"
        ["../escape.mkv"] =
      delete_from_filesystem fsLink "/w.torrent" "/s.torrent" "/data/show"
        ["/etc/passwd"] :=
  ⟨by decide,
   c10_skip_validation.1 fsLink "/w.torrent" "/s.torrent" "/data/show"
     ["../escape.mkv"] ["/etc/passwd"] (by decide)⟩

/-! C3: the single-file branch. -/

/-- C3 counterexample: with the regular-file root `/data/movie.mkv` and
the declared list `["movie.mkv"]` the removal succeeds, yet appending
that entry to the root does not give the root back — so "succeeds only
if the entry, appended to the root, refers to the same path as the root"
is false of the code: the code's check is a component-suffix test. -/
theorem c3_single_file_cex :
    fsLookup fsSingle (pathComps "/data/movie.mkv") = some NodeType.file ∧
    delete_from_filesystem fsSingle "/w.torrent" "/s.torrent" "/data/movie.mkv"
        ["movie.mkv"] =
      .ok ⟨⟨[(["data"], NodeType.dir)], []⟩, [Ev.rmFile ["data", "movie.mkv"]]⟩ ∧
    pathComps "/data/movie.mkv" ++ pathComps "movie.mkv" ≠ pathComps "/data/movie.mkv" := by
  refine ⟨by decide, by decide, by decide⟩

/-- C3 amended: when the content root lstats as a regular file, the
removal (after the descriptor phase) succeeds only if the declared list
has exactly one entry and the root path ends with that entry, comparing
whole path components (Rust `Path::ends_with`); in every other case it
fails with an integrity fault (a failed assertion). -/
theorem c3_single_file_fidelity
    (fs : FS) (watched sess content : String) (files : List String) (s1 : St)
    (habs : isAbsStr content = true)
    (hty : fsLookup fs (pathComps content) = some NodeType.file)
    (hdesc : removeDescriptors ⟨fs, []⟩ (pathComps watched) (pathComps sess) = .ok s1) :
    ((∃ s2, delete_from_filesystem fs watched sess content files = .ok s2) →
      ∃ f, files = [f] ∧ pathEndsWith content f = true) ∧
    ((¬ ∃ f, files = [f] ∧ pathEndsWith content f = true) →
      delete_from_filesystem fs watched sess content files =
        .fault .integrityFault s1) := by
  have hred : delete_from_filesystem fs watched sess content files =
      (match files with
       | [f] =>
           if pathEndsWith content f then rmFileOp s1 (pathComps content)
           else .fault .integrityFault s1
       | _ => .fault .integrityFault s1) := by
    rcases files with _ | ⟨f, _ | ⟨g, t⟩⟩ <;>
      simp [delete_from_filesystem, habs, hty, hdesc]
  constructor
  · rintro ⟨s2, hs2⟩
    rw [hred] at hs2
    rcases files with _ | ⟨f, _ | ⟨g, t⟩⟩
    · exact absurd hs2 (by simp)
    · cases hend : pathEndsWith content f
      · simp [hend] at hs2
      · exact ⟨f, rfl, hend⟩
    · exact absurd hs2 (by simp)
  · intro hno
    rw [hred]
    rcases files with _ | ⟨f, _ | ⟨g, t⟩⟩
    · rfl
    · cases hend : pathEndsWith content f
      · simp [hend]
      · exact absurd ⟨f, rfl, hend⟩ hno
    · rfl

theorem c3_single_file_fidelity_witness :
    fsLookup fsSingle (pathComps "/data/movie.mkv") = some NodeType.file ∧
    (((∃ s2, delete_from_filesystem fsSingle "/w.torrent" "/s.torrent"
          "/data/movie.mkv" [] = .ok s2) →
        ∃ f, ([] : List String) = [f] ∧ pathEndsWith "/data/movie.mkv" f = true) ∧
     ((¬ ∃ f, ([] : List String) = [f] ∧ pathEndsWith "/data/movie.mkv" f = true) →
        delete_from_filesystem fsSingle "/w.torrent" "/s.torrent"
            "/data/movie.mkv" [] = .fault .integrityFault ⟨fsSingle, []⟩)) :=
  ⟨by decide,
   c3_single_file_fidelity fsSingle "/w.torrent" "/s.torrent" "/data/movie.mkv"
     [] ⟨fsSingle, []⟩ (by decide) (by decide) (by decide)⟩

/-! C9: a directory root with an empty declared file list. -/

/-- C9: when the content root lstats as a directory and the declared
file list is empty, the removal performs no per-file deletions and no
implied-directory removals; it attempts exactly one directory removal,
of the root itself, which succeeds exactly when the directory is empty
(and not permission-blocked), and otherwise surfaces the filesystem
error. -/
theorem c9_empty_manifest
    (fs : FS) (watched sess content : String) (s1 : St)
    (habs : isAbsStr content = true)
    (hty : fsLookup fs (pathComps content) = some NodeType.dir)
    (hdesc : removeDescriptors ⟨fs, []⟩ (pathComps watched) (pathComps sess) = .ok s1)
    (hlk : fsLookup s1.fs (pathComps content) = some NodeType.dir)
    (hfz : isFrozen s1.fs (pathComps content) = false) :
    delete_from_filesystem fs watched sess content [] = rmDirOp s1 (pathComps content) ∧
    (dirNonempty s1.fs (pathComps content) = false →
      delete_from_filesystem fs watched sess content [] =
        .ok ⟨fsRemove s1.fs (pathComps content),
             s1.evs ++ [Ev.rmDir (pathComps content)]⟩) ∧
    (dirNonempty s1.fs (pathComps content) = true →
      delete_from_filesystem fs watched sess content [] = .fault .fsError s1) := by
  have h0 : delete_from_filesystem fs watched sess content [] =
      rmDirOp s1 (pathComps content) := by
    simp [delete_from_filesystem, habs, hty, hdesc, removeContentFiles, dirsOf,
      sortByLenDesc, removeImpliedDirs]
  refine ⟨h0, fun hne => ?_, fun hne => ?_⟩
  · rw [h0]; simp [rmDirOp, hfz, hlk, hne]
  · rw [h0]; simp [rmDirOp, hfz, hlk, hne]

theorem c9_empty_manifest_witness :
    fsLookup fsHalfGone (pathComps "/data/show") = some NodeType.dir ∧
    (delete_from_filesystem fsHalfGone "/w.torrent" "/s.torrent" "/data/show" [] =
        rmDirOp ⟨fsHalfGone, []⟩ (pathComps "/data/show") ∧
     (dirNonempty fsHalfGone (pathComps "/data/show") = false →
       delete_from_filesystem fsHalfGone "/w.torrent" "/s.torrent" "/data/show" [] =
         .ok ⟨fsRemove fsHalfGone (pathComps "/data/show"),
              [] ++ [Ev.rmDir (pathComps "/data/show")]⟩) ∧
     (dirNonempty fsHalfGone (pathComps "/data/show") = true →
       delete_from_filesystem fsHalfGone "/w.torrent" "/s.torrent" "/data/show" [] =
         .fault .fsError ⟨fsHalfGone, []⟩)) :=
  ⟨by decide,
   c9_empty_manifest fsHalfGone "/w.torrent" "/s.torrent" "/data/show"
     ⟨fsHalfGone, []⟩ (by decide) (by decide) (by decide) (by decide) (by decide)⟩

/-! C1: containment. -/

/-- Whether an event deletes a path lying below the root `c`. -/
def evUnder (c : List String) : Ev → Bool
  | Ev.rmFile p => listStartsWith p c
  | Ev.rmDir p => listStartsWith p c

theorem removeContentFiles_evs_under (c : List String) :
    ∀ (files : List String) (s : St),
      ∃ news, (outcomeSt (removeContentFiles c s files)).evs = s.evs ++ news ∧
        news.all (evUnder c) = true := by
  intro files
  induction files with
  | nil => intro s; exact ⟨[], by simp [removeContentFiles, outcomeSt]⟩
  | cons f rest ih =>
      intro s
      by_cases habs : isAbsStr f = true
      · exact ⟨[], by simp [removeContentFiles, habs, outcomeSt]⟩
      · have habs' : isAbsStr f = false := by
          cases h : isAbsStr f
          · rfl
          · exact absurd h habs
        cases hcan : canonicalize s.fs (c ++ pathComps f) with
        | none => exact ⟨[], by simp [removeContentFiles, habs', hcan, outcomeSt]⟩
        | some a =>
            cases hsw : listStartsWith a c
            · exact ⟨[], by simp [removeContentFiles, habs', hcan, hsw, outcomeSt]⟩
            · cases hrm : rmFileOp s a with
              | ok s1 =>
                  obtain ⟨news, hn, hall⟩ := ih s1
                  have hevs := (rmFileOp_ok_eq hrm).2
                  refine ⟨Ev.rmFile a :: news, ?_, ?_⟩
                  · have hstep : removeContentFiles c s (f :: rest) =
                        removeContentFiles c s1 rest := by
                      simp [removeContentFiles, habs', hcan, hsw, hrm]
                    rw [hstep, hn, hevs]
                    simp
                  · simp [evUnder, hsw, hall]
              | fault e s1 =>
                  have h1 : s1 = s := rmFileOp_fault_eq hrm
                  subst h1
                  exact ⟨[], by simp [removeContentFiles, habs', hcan, hsw, hrm, outcomeSt]⟩

theorem removeImpliedDirs_evs_under (c : List String) :
    ∀ (ds : List (List String)) (s : St),
      ∃ news, (outcomeSt (removeImpliedDirs c s ds)).evs = s.evs ++ news ∧
        news.all (evUnder c) = true := by
  intro ds
  induction ds with
  | nil => intro s; exact ⟨[], by simp [removeImpliedDirs, outcomeSt]⟩
  | cons d rest ih =>
      intro s
      cases hcan : canonicalize s.fs (c ++ d) with
      | none => exact ⟨[], by simp [removeImpliedDirs, hcan, outcomeSt]⟩
      | some a =>
          cases hsw : listStartsWith a c
          · exact ⟨[], by simp [removeImpliedDirs, hcan, hsw, outcomeSt]⟩
          · cases hrm : rmDirOp s a with
            | ok s1 =>
                obtain ⟨news, hn, hall⟩ := ih s1
                have hevs := (rmDirOp_ok_eq hrm).2
                refine ⟨Ev.rmDir a :: news, ?_, ?_⟩
                · have hstep : removeImpliedDirs c s (d :: rest) =
                      removeImpliedDirs c s1 rest := by
                    simp [removeImpliedDirs, hcan, hsw, hrm]
                  rw [hstep, hn, hevs]
                  simp
                · simp [evUnder, hsw, hall]
            | fault e s1 =>
                have h1 : s1 = s := rmDirOp_fault_eq hrm
                subst h1
                exact ⟨[], by simp [removeImpliedDirs, hcan, hsw, hrm, outcomeSt]⟩

/-- C1 counterexample: content root `/data/show`, declared files
`["../escape.mkv"]`.  The run does fail with an integrity fault and
deletes no file under (or outside) the root, but the claim's "deletes
nothing — no file, directory, or descriptor removal occurs" is false:
the watch descriptor `/w.torrent`, present before the run, has already
been deleted when the containment check fails. -/
theorem c1_containment_cex :
    fsLookup fsEscape ["w.torrent"] = some NodeType.file ∧
    delete_from_filesystem fsEscape "/w.torrent" "/s.torrent" "/data/show"
        ["../escape.mkv"] =
      .fault .integrityFault
        ⟨⟨[(["data"], NodeType.dir), (["data", "show"], NodeType.dir),
           (["data", "show", "x.mkv"], NodeType.file),
           (["data", "escape.mkv"], NodeType.file)], []⟩,
         [Ev.rmFile ["w.torrent"]]⟩ :=
  ⟨by decide, by decide⟩

/-- C1 amended: every path deleted by the per-file loop and by the
implied-directory loop lies below the content root (the canonicalized
join is checked against the root before each deletion), and an entry
whose canonicalized join escapes the root makes the removal fail with an
integrity fault before that entry, any implied directory, or the root is
deleted — but after the descriptor files (and any earlier-listed
entries) have already been removed. -/
theorem c1_containment :
    (∀ (c files : List String) (s : St),
      ∃ news, (outcomeSt (removeContentFiles c s files)).evs = s.evs ++ news ∧
        news.all (evUnder c) = true) ∧
    (∀ (c : List String) (ds : List (List String)) (s : St),
      ∃ news, (outcomeSt (removeImpliedDirs c s ds)).evs = s.evs ++ news ∧
        news.all (evUnder c) = true) ∧
    (∀ (fs : FS) (watched sess content f : String) (rest : List String)
      (s1 : St) (a : List String),
      isAbsStr content = true →
      fsLookup fs (pathComps content) = some NodeType.dir →
      removeDescriptors ⟨fs, []⟩ (pathComps watched) (pathComps sess) = .ok s1 →
      isAbsStr f = false →
      canonicalize s1.fs (pathComps content ++ pathComps f) = some a →
      listStartsWith a (pathComps content) = false →
      delete_from_filesystem fs watched sess content (f :: rest) =
        .fault .integrityFault s1) := by
  refine ⟨fun c files s => removeContentFiles_evs_under c files s,
    fun c ds s => removeImpliedDirs_evs_under c ds s,
    fun fs watched sess content f rest s1 a habs hty hdesc hrel hcan hesc => ?_⟩
  simp [delete_from_filesystem, habs, hty, hdesc, removeContentFiles, hrel, hcan, hesc]

theorem c1_containment_witness :
    (∃ news,
      (outcomeSt (removeContentFiles ["data", "show"] ⟨fsShow, []⟩
        ["S01/e1.mkv", "S01/e2.mkv"])).evs = ([] : List Ev) ++ news ∧
      news.all (evUnder ["data", "show"]) = true) ∧
    (isAbsStr "../escape.mkv" = false ∧
     delete_from_filesystem fsEscape "/w.torrent" "/s.torrent" "/data/show"
        ["../escape.mkv", "x.mkv"] =
      .fault .integrityFault
        ⟨⟨[(["data"], NodeType.dir), (["data", "show"], NodeType.dir),
           (["data", "show", "x.mkv"], NodeType.file),
           (["data", "escape.mkv"], NodeType.file)], []⟩,
         [Ev.rmFile ["w.torrent"]]⟩) :=
  ⟨c1_containment.1 ["data", "show"] ["S01/e1.mkv", "S01/e2.mkv"] ⟨fsShow, []⟩,
   by decide,
   c1_containment.2.2 fsEscape "/w.torrent" "/s.torrent" "/data/show"
     "../escape.mkv" ["x.mkv"]
     ⟨⟨[(["data"], NodeType.dir), (["data", "show"], NodeType.dir),
        (["data", "show", "x.mkv"], NodeType.file),
        (["data", "escape.mkv"], NodeType.file)], []⟩,
      [Ev.rmFile ["w.torrent"]]⟩
     ["data", "escape.mkv"]
     (by decide) (by decide) (by decide) (by decide) (by decide) (by decide)⟩

/-! C2: idempotence of multi-file removal. -/

/-- C2 counterexample: re-running removal over a partially removed tree —
root directory `/data/show` still present, declared file `S01/e1.mkv`
already gone — does not treat the absent file as already-removed: the
`canonicalize().unwrap()` on the missing path fails, so the run errors
instead of succeeding as a no-op. -/
theorem c2_idempotence_cex :
    fsLookup fsHalfGone (pathComps "/data/show") = some NodeType.dir ∧
    fsLookup fsHalfGone (pathComps "/data/show/S01/e1.mkv") = none ∧
    delete_from_filesystem fsHalfGone "/w.torrent" "/s.torrent" "/data/show"
        ["S01/e1.mkv"] = .fault .integrityFault ⟨fsHalfGone, []⟩ :=
  ⟨by decide, by decide, by decide⟩

/-- C2 amended: only the descriptor files are treated as already-removed
no-ops when absent.  A missing content root fails the initial lstat with
a not-found error, and a missing declared content file makes the
canonicalize-unwrap fail, so re-running a partially completed multi-file
removal errors rather than converging. -/
theorem c2_missing_handling :
    (∀ (s : St) (p : List String),
      fsLookup s.fs p = none → removeDescriptor s p = .ok s) ∧
    (∀ (fs : FS) (watched sess content : String) (files : List String),
      isAbsStr content = true →
      fsLookup fs (pathComps content) = none →
      delete_from_filesystem fs watched sess content files =
        .fault .notFound ⟨fs, []⟩) ∧
    (∀ (c : List String) (s : St) (f : String) (rest : List String),
      isAbsStr f = false →
      canonicalize s.fs (c ++ pathComps f) = none →
      removeContentFiles c s (f :: rest) = .fault .integrityFault s) := by
  refine ⟨fun s p h => ?_, fun fs watched sess content files habs h => ?_,
    fun c s f rest habs hcan => ?_⟩
  · simp [removeDescriptor, h]
  · simp [delete_from_filesystem, habs, h]
  · simp [removeContentFiles, habs, hcan]

theorem c2_missing_handling_witness :
    (fsLookup fsHalfGone ["s.torrent"] = none ∧
     removeDescriptor ⟨fsHalfGone, []⟩ ["s.torrent"] = .ok ⟨fsHalfGone, []⟩) ∧
    (delete_from_filesystem fsHalfGone "/w.torrent" "/s.torrent" "/data/gone" [] =
      .fault .notFound ⟨fsHalfGone, []⟩) ∧
    (removeContentFiles ["data", "show"] ⟨fsHalfGone, []⟩ ["S01/e1.mkv"] =
      .fault .integrityFault ⟨fsHalfGone, []⟩) :=
  ⟨⟨by decide, c2_missing_handling.1 ⟨fsHalfGone, []⟩ ["s.torrent"] (by decide)⟩,
   c2_missing_handling.2.1 fsHalfGone "/w.torrent" "/s.torrent" "/data/gone" []
     (by decide) (by decide),
   c2_missing_handling.2.2 ["data", "show"] ⟨fsHalfGone, []⟩ "S01/e1.mkv" []
     (by decide) (by decide)⟩

/-! C4: ordering of descriptor removal and content removal. -/

/-- C4 counterexample.  First: the content root is lstat-ed before any
descriptor removal — with the root absent and the watch descriptor
present and removable, the run fails with not-found and the descriptor
is still there, so the Descriptor Remover did not execute before content
root inspection.  Second: a failing (permission-denied) watch-descriptor
removal makes the whole run fail before any content deletion — the
declared content file is still present afterwards — so a
descriptor-removal failure does prevent content removal. -/
theorem c4_descriptor_order_cex :
    (fsLookup fsNoRoot ["w.torrent"] = some NodeType.file ∧
     delete_from_filesystem fsNoRoot "/w.torrent" "/s.torrent" "/data/show" [] =
       .fault .notFound ⟨fsNoRoot, []⟩) ∧
    (delete_from_filesystem fsFrozenW "/w.torrent" "/s.torrent" "/data/show"
        ["x.mkv"] = .fault .fsError ⟨fsFrozenW, []⟩ ∧
     fsLookup fsFrozenW ["data", "show", "x.mkv"] = some NodeType.file) :=
  ⟨⟨by decide, by decide⟩, by decide, by decide⟩

/-- C4 amended: for each processed torrent the content root is lstat-ed
first (if that fails nothing at all is deleted); only then are the two
descriptor files removed, and a descriptor-removal failure aborts that
torrent's content removal with the error surfaced; the driving loop
reports such an io-style error and continues with the remaining
torrents. -/
theorem c4_descriptor_order :
    (∀ (fs : FS) (watched sess content : String) (files : List String),
      isAbsStr content = true →
      fsLookup fs (pathComps content) = none →
      delete_from_filesystem fs watched sess content files =
        .fault .notFound ⟨fs, []⟩) ∧
    (∀ (fs : FS) (watched sess content : String) (files : List String)
      (ty : NodeType) (e : RmError) (s1 : St),
      isAbsStr content = true →
      fsLookup fs (pathComps content) = some ty →
      removeDescriptors ⟨fs, []⟩ (pathComps watched) (pathComps sess) =
        .fault e s1 →
      delete_from_filesystem fs watched sess content files = .fault e s1) ∧
    (∀ (fs : FS) (t : Torrent) (rest : List Torrent) (s : St),
      msgQualifies t.msg = true →
      deleteTorrent fs t = .fault .fsError s →
      mainLoop fs (t :: rest) = mainLoop s.fs rest) := by
  refine ⟨fun fs watched sess content files habs h => ?_,
    fun fs watched sess content files ty e s1 habs hty hdesc => ?_,
    fun fs t rest s hq hdel => ?_⟩
  · simp [delete_from_filesystem, habs, h]
  · simp [delete_from_filesystem, habs, hty, hdesc]
  · conv_lhs => rw [mainLoop]
    rw [hq, hdel]
    simp

theorem c4_descriptor_order_witness :
    (delete_from_filesystem fsNoRoot "/w2.torrent" "/s.torrent" "/data/show" [] =
      .fault .notFound ⟨fsNoRoot, []⟩) ∧
    (delete_from_filesystem fsFrozenW "/w.torrent" "/s.torrent" "/data/show"
        ["x.mkv", "y.mkv"] = .fault .fsError ⟨fsFrozenW, []⟩) ∧
    (mainLoop fsFrozenW
        [⟨"n", "Tracker: [Failure reason \"Unregistered torrent\"]",
          "/w.torrent", "/s.torrent", "/data/show", ["x.mkv"]⟩] =
      mainLoop fsFrozenW []) :=
  ⟨c4_descriptor_order.1 fsNoRoot "/w2.torrent" "/s.torrent" "/data/show" []
     (by decide) (by decide),
   c4_descriptor_order.2.1 fsFrozenW "/w.torrent" "/s.torrent" "/data/show"
     ["x.mkv", "y.mkv"] NodeType.dir RmError.fsError ⟨fsFrozenW, []⟩
     (by decide) (by decide) (by decide),
   c4_descriptor_order.2.2 fsFrozenW
     ⟨"n", "Tracker: [Failure reason \"Unregistered torrent\"]",
      "/w.torrent", "/s.torrent", "/data/show", ["x.mkv"]⟩ [] ⟨fsFrozenW, []⟩
     (by decide) (by decide)⟩

/-! C7: precondition handling. -/

/-- C7 counterexample.  First: a precondition violation does not abort
only the current torrent: a qualifying torrent whose content root is
`/` panics, and the batch stops — the second, healthy qualifying torrent
is never processed (its content file survives and the loop reports an
aborted run).  Second: a violation does not leave the current torrent's
state untouched: with a relative-path violation in the second declared
entry, the watch descriptor and the first declared file are already
deleted when the assertion fires. -/
theorem c7_preconditions_cex :
    (mainLoop fsSingle
        [⟨"a", "Tracker: [Failure reason \"Unregistered torrent\"]",
          "/w.torrent", "/s.torrent", "/", []⟩,
         ⟨"b", "Tracker: [Failure reason \"Unregistered torrent\"]",
          "/w2.torrent", "/s2.torrent", "/data/movie.mkv", ["movie.mkv"]⟩] =
       (fsSingle, false) ∧
     msgQualifies "Tracker: [Failure reason \"Unregistered torrent\"]" = true ∧
     fsLookup fsSingle ["data", "movie.mkv"] = some NodeType.file) ∧
    (delete_from_filesystem fsEscape "/w.torrent" "/s.torrent" "/data/show"
        ["x.mkv", "/etc/passwd"] =
      .fault .integrityFault
        ⟨⟨[(["data"], NodeType.dir), (["data", "show"], NodeType.dir),
           (["data", "escape.mkv"], NodeType.file)], []⟩,
         [Ev.rmFile ["w.torrent"], Ev.rmFile ["data", "show", "x.mkv"]]⟩) :=
  ⟨⟨by decide, by decide, by decide⟩, by decide⟩

/-- C7 amended: the checks exist exactly as stated — the root must not
be `/`, must be longer than one byte, must be absolute, and every
declared entry must be relative.  A violation is an integrity fault
(a failed assertion, i.e. a panic): the root-level checks fire before
anything is deleted for that torrent, the per-entry relative check fires
mid-removal (after the descriptors and earlier entries are gone), and
the panic stops the whole batch rather than only the current torrent. -/
theorem c7_preconditions :
    (∀ (fs : FS) (t : Torrent), t.content = "/" →
      deleteTorrent fs t = .fault .integrityFault ⟨fs, []⟩) ∧
    (∀ (fs : FS) (t : Torrent), t.content.data.length ≤ 1 →
      deleteTorrent fs t = .fault .integrityFault ⟨fs, []⟩) ∧
    (∀ (fs : FS) (watched sess content : String) (files : List String),
      isAbsStr content = false →
      delete_from_filesystem fs watched sess content files =
        .fault .integrityFault ⟨fs, []⟩) ∧
    (∀ (c : List String) (s : St) (f : String) (rest : List String),
      isAbsStr f = true →
      removeContentFiles c s (f :: rest) = .fault .integrityFault s) ∧
    (∀ (fs : FS) (t : Torrent) (rest : List Torrent) (s : St),
      msgQualifies t.msg = true →
      deleteTorrent fs t = .fault .integrityFault s →
      mainLoop fs (t :: rest) = (s.fs, false)) := by
  refine ⟨fun fs t h => ?_, fun fs t h => ?_,
    fun fs watched sess content files h => ?_,
    fun c s f rest h => ?_, fun fs t rest s hq hdel => ?_⟩
  · simp [deleteTorrent, h]
  · by_cases hc : t.content == "/"
    · simp [deleteTorrent, hc]
    · have h2 : ¬ (1 < t.content.length) := by
        have h3 : t.content.length ≤ 1 := h
        omega
      simp [deleteTorrent, hc, h2]
  · simp [delete_from_filesystem, h]
  · simp [removeContentFiles, h]
  · conv_lhs => rw [mainLoop]
    rw [hq, hdel]
    simp

theorem c7_preconditions_witness :
    (deleteTorrent fsSingle
        ⟨"a", "m", "/w.torrent", "/s.torrent", "/", []⟩ =
      .fault .integrityFault ⟨fsSingle, []⟩) ∧
    (deleteTorrent fsSingle
        ⟨"a", "m", "/w.torrent", "/s.torrent", "x", []⟩ =
      .fault .integrityFault ⟨fsSingle, []⟩) ∧
    (delete_from_filesystem fsSingle "/w.torrent" "/s.torrent" "rel/path" [] =
      .fault .integrityFault ⟨fsSingle, []⟩) ∧
    (removeContentFiles ["data", "show"] ⟨fsEscape, []⟩ ["/etc/passwd"] =
      .fault .integrityFault ⟨fsEscape, []⟩) ∧
    (mainLoop fsSingle
        [⟨"a", "Tracker: [Failure reason \"Unregistered torrent\"]",
          "/w.torrent", "/s.torrent", "/", []⟩] = (fsSingle, false)) :=
  ⟨c7_preconditions.1 fsSingle ⟨"a", "m", "/w.torrent", "/s.torrent", "/", []⟩
     (by decide),
   c7_preconditions.2.1 fsSingle ⟨"a", "m", "/w.torrent", "/s.torrent", "x", []⟩
     (by decide),
   c7_preconditions.2.2.1 fsSingle "/w.torrent" "/s.torrent" "rel/path" []
     (by decide),
   c7_preconditions.2.2.2.1 ["data", "show"] ⟨fsEscape, []⟩ "/etc/passwd" []
     (by decide),
   c7_preconditions.2.2.2.2 fsSingle
     ⟨"a", "Tracker: [Failure reason \"Unregistered torrent\"]",
      "/w.torrent", "/s.torrent", "/", []⟩ [] ⟨fsSingle, []⟩
     (by decide) (by decide)⟩

/-! C5: the ordering law.  Trace lemmas for the successful multi-file
run, and order lemmas for the implied-directory sort. -/

theorem canonicalize_some_eq {fs : FS} {p a : List String}
    (h : canonicalize fs p = some a) : a = canonComps [] p := by
  have hdef : canonicalize fs p =
      (if (fsLookup fs (canonComps [] p)).isSome = true then
        some (canonComps [] p) else none) := rfl
  rw [hdef] at h
  split at h
  · cases h; rfl
  · exact absurd h (by simp)

theorem removeContentFiles_ok_evs (c : List String) :
    ∀ (files : List String) (s s' : St),
      removeContentFiles c s files = .ok s' →
      s'.evs = s.evs ++
        files.map (fun f => Ev.rmFile (canonComps [] (c ++ pathComps f))) := by
  intro files
  induction files with
  | nil =>
      intro s s' h
      simp [removeContentFiles] at h
      subst h
      simp
  | cons f rest ih =>
      intro s s' h
      by_cases habs : isAbsStr f = true
      · simp [removeContentFiles, habs] at h
      · have habs' : isAbsStr f = false := by
          cases hb : isAbsStr f
          · rfl
          · exact absurd hb habs
        cases hcan : canonicalize s.fs (c ++ pathComps f) with
        | none => simp [removeContentFiles, habs', hcan] at h
        | some a =>
            cases hsw : listStartsWith a c
            · simp [removeContentFiles, habs', hcan, hsw] at h
            · cases hrm : rmFileOp s a with
              | ok s1 =>
                  have hstep : removeContentFiles c s (f :: rest) =
                      removeContentFiles c s1 rest := by
                    simp [removeContentFiles, habs', hcan, hsw, hrm]
                  rw [hstep] at h
                  have h2 := ih s1 s' h
                  have h3 := (rmFileOp_ok_eq hrm).2
                  have h4 := canonicalize_some_eq hcan
                  rw [h2, h3, h4]
                  simp
              | fault e s1 => simp [removeContentFiles, habs', hcan, hsw, hrm] at h

theorem removeImpliedDirs_ok_evs (c : List String) :
    ∀ (ds : List (List String)) (s s' : St),
      removeImpliedDirs c s ds = .ok s' →
      s'.evs = s.evs ++ ds.map (fun d => Ev.rmDir (canonComps [] (c ++ d))) := by
  intro ds
  induction ds with
  | nil =>
      intro s s' h
      simp [removeImpliedDirs] at h
      subst h
      simp
  | cons d rest ih =>
      intro s s' h
      cases hcan : canonicalize s.fs (c ++ d) with
      | none => simp [removeImpliedDirs, hcan] at h
      | some a =>
          cases hsw : listStartsWith a c
          · simp [removeImpliedDirs, hcan, hsw] at h
          · cases hrm : rmDirOp s a with
            | ok s1 =>
                have hstep : removeImpliedDirs c s (d :: rest) =
                    removeImpliedDirs c s1 rest := by
                  simp [removeImpliedDirs, hcan, hsw, hrm]
                rw [hstep] at h
                have h2 := ih s1 s' h
                have h3 := (rmDirOp_ok_eq hrm).2
                have h4 := canonicalize_some_eq hcan
                rw [h2, h3, h4]
                simp
            | fault e s1 => simp [removeImpliedDirs, hcan, hsw, hrm] at h

theorem mem_insertByLen {d x : List String} {l : List (List String)} :
    x ∈ insertByLen d l ↔ x = d ∨ x ∈ l := by
  induction l with
  | nil => simp [insertByLen]
  | cons e rest ih =>
      by_cases h : osLen e ≤ osLen d
      · simp [insertByLen, h]
      · simp only [insertByLen, if_neg h, List.mem_cons, ih]
        tauto

theorem pairwise_insertByLen {d : List String} {l : List (List String)}
    (h : l.Pairwise (fun a b => osLen b ≤ osLen a)) :
    (insertByLen d l).Pairwise (fun a b => osLen b ≤ osLen a) := by
  induction l with
  | nil => simp [insertByLen]
  | cons e rest ih =>
      rcases List.pairwise_cons.mp h with ⟨he, hrest⟩
      by_cases hle : osLen e ≤ osLen d
      · rw [show insertByLen d (e :: rest) = d :: e :: rest from by
          simp [insertByLen, hle]]
        refine List.pairwise_cons.mpr ⟨?_, h⟩
        intro b hb
        rcases List.mem_cons.mp hb with rfl | hb'
        · exact hle
        · exact le_trans (he b hb') hle
      · rw [show insertByLen d (e :: rest) = e :: insertByLen d rest from by
          simp [insertByLen, hle]]
        refine List.pairwise_cons.mpr ⟨?_, ih hrest⟩
        intro b hb
        rcases mem_insertByLen.mp hb with rfl | hb'
        · exact le_of_lt (lt_of_not_le hle)
        · exact he b hb'

theorem pairwise_sortByLenDesc (l : List (List String)) :
    (sortByLenDesc l).Pairwise (fun a b => osLen b ≤ osLen a) := by
  induction l with
  | nil => simp [sortByLenDesc]
  | cons d rest ih => exact pairwise_insertByLen ih

theorem perm_insertByLen (d : List String) (l : List (List String)) :
    List.Perm (insertByLen d l) (d :: l) := by
  induction l with
  | nil => exact List.Perm.refl _
  | cons e rest ih =>
      by_cases h : osLen e ≤ osLen d
      · rw [show insertByLen d (e :: rest) = d :: e :: rest from by
          simp [insertByLen, h]]
      · rw [show insertByLen d (e :: rest) = e :: insertByLen d rest from by
          simp [insertByLen, h]]
        exact (ih.cons e).trans (List.Perm.swap d e rest)

theorem perm_sortByLenDesc (l : List (List String)) :
    List.Perm (sortByLenDesc l) l := by
  induction l with
  | nil => exact List.Perm.refl _
  | cons d rest ih => exact (perm_insertByLen d (sortByLenDesc rest)).trans (ih.cons d)

theorem osLen_cons_cons (a b : String) (r : List String) :
    osLen (a :: b :: r) = a.data.length + 1 + osLen (b :: r) := rfl

theorem ne_empty_data_pos {y : String} (hy : y ≠ "") : 0 < y.data.length := by
  rcases y with ⟨data⟩
  cases data with
  | nil => exact absurd rfl hy
  | cons c cs => simp

theorem osLen_pos {q : List String} (hne : q ≠ []) (hq : ∀ x ∈ q, x ≠ "") :
    0 < osLen q := by
  cases q with
  | nil => exact absurd rfl hne
  | cons y r =>
      have h1 := ne_empty_data_pos (hq y (List.mem_cons_self y r))
      cases r with
      | nil => simpa [osLen] using h1
      | cons b r' =>
          rw [osLen_cons_cons]
          omega

theorem osLen_lt_of_proper :
    ∀ (p q : List String), listStartsWith q p = true → p ≠ q →
      (∀ x ∈ q, x ≠ "") → osLen p < osLen q := by
  intro p
  induction p with
  | nil =>
      intro q _ hne hq
      have hqne : q ≠ [] := fun hh => hne hh.symm
      simpa [osLen] using osLen_pos hqne hq
  | cons a p' ih =>
      intro q hsw hne hq
      cases q with
      | nil => simp [listStartsWith] at hsw
      | cons b q' =>
          rw [listStartsWith] at hsw
          simp only [Bool.and_eq_true, beq_iff_eq] at hsw
          obtain ⟨hba', hsw'⟩ := hsw
          subst hba'
          have hne' : p' ≠ q' := fun hh => hne (by rw [hh])
          cases p' with
          | nil =>
              cases q' with
              | nil => exact absurd rfl hne'
              | cons c r =>
                  rw [show osLen [b] = b.data.length from rfl, osLen_cons_cons]
                  omega
          | cons a2 p'' =>
              cases q' with
              | nil => simp [listStartsWith] at hsw'
              | cons b2 q'' =>
                  have hlt := ih (b2 :: q'') hsw' hne'
                    (fun x hx => hq x (List.mem_cons_of_mem _ hx))
                  rw [osLen_cons_cons, osLen_cons_cons]
                  omega

theorem mem_pathComps_ne {f x : String} (h : x ∈ pathComps f) : x ≠ "" := by
  have h2 := (List.mem_filter.mp h).2
  intro he
  subst he
  simp at h2

theorem mem_dirsOf_comps_ne {files : List String} {d : List String}
    (h : d ∈ dirsOf files) : ∀ x ∈ d, x ≠ "" := by
  intro x hx
  have h1 := (perm_sortByLenDesc
    (List.dedup (files.flatMap (fun f => properAncestors (pathComps f))))).mem_iff.mp h
  have h2 := List.mem_dedup.mp h1
  obtain ⟨f, _, hdf⟩ := List.mem_flatMap.mp h2
  obtain ⟨k, _, hdk⟩ := List.mem_map.mp hdf
  have hx' : x ∈ pathComps f := List.take_subset _ _ (hdk ▸ hx)
  exact mem_pathComps_ne hx'

theorem pairwise_dirsOf_no_ancestor (files : List String) :
    (dirsOf files).Pairwise
      (fun d1 d2 => ¬(d1 ≠ d2 ∧ listStartsWith d2 d1 = true)) := by
  have hp : (dirsOf files).Pairwise (fun a b => osLen b ≤ osLen a) :=
    pairwise_sortByLenDesc _
  refine hp.imp_of_mem ?_
  intro a b ha hb hab
  rintro ⟨hne, hsw⟩
  have hlt := osLen_lt_of_proper a b hsw hne
    (fun x hx => mem_dirsOf_comps_ne hb x hx)
  omega

/-- C5: in every successful directory-rooted removal the trace is: some
descriptor-file removals, then one file removal per declared entry in
declared order, then one directory removal per implied directory in the
computed (longest-first) order, and finally the removal of the content
root itself — so every content file is deleted before any implied
directory, the implied directories are removed in non-increasing
path-length order, and no directory is removed before a directory it is
a proper ancestor of (children strictly first); the root is removed
last. -/
theorem c5_ordering_law
    (fs : FS) (watched sess content : String) (files : List String) (sfin : St)
    (habs : isAbsStr content = true)
    (hty : fsLookup fs (pathComps content) = some NodeType.dir)
    (hok : delete_from_filesystem fs watched sess content files = .ok sfin) :
    (∃ descEvs, sfin.evs =
        descEvs ++
        files.map (fun f =>
          Ev.rmFile (canonComps [] (pathComps content ++ pathComps f))) ++
        (dirsOf files).map (fun d =>
          Ev.rmDir (canonComps [] (pathComps content ++ d))) ++
        [Ev.rmDir (pathComps content)] ∧
      ∀ e ∈ descEvs, ∃ p, e = Ev.rmFile p) ∧
    (dirsOf files).Pairwise (fun d1 d2 => osLen d2 ≤ osLen d1) ∧
    (dirsOf files).Pairwise
      (fun d1 d2 => ¬(d1 ≠ d2 ∧ listStartsWith d2 d1 = true)) := by
  refine ⟨?_, pairwise_sortByLenDesc _, pairwise_dirsOf_no_ancestor files⟩
  simp only [delete_from_filesystem, habs, Bool.not_true, Bool.false_eq_true,
    if_false, hty] at hok
  cases hdesc : removeDescriptors ⟨fs, []⟩ (pathComps watched) (pathComps sess) with
  | fault e s1 => rw [hdesc] at hok; simp at hok
  | ok s1 =>
      rw [hdesc] at hok
      simp only at hok
      cases hfiles : removeContentFiles (pathComps content) s1 files with
      | fault e s2 => rw [hfiles] at hok; simp at hok
      | ok s2 =>
          rw [hfiles] at hok
          simp only at hok
          cases hdirs : removeImpliedDirs (pathComps content) s2 (dirsOf files) with
          | fault e s3 => rw [hdirs] at hok; simp at hok
          | ok s3 =>
              rw [hdirs] at hok
              simp only at hok
              have h4 := (rmDirOp_ok_eq hok).2
              have h3 := removeImpliedDirs_ok_evs (pathComps content)
                (dirsOf files) s2 s3 hdirs
              have h2 := removeContentFiles_ok_evs (pathComps content)
                files s1 s2 hfiles
              obtain ⟨descEvs, h1, hdf⟩ := removeDescriptors_ok_evs hdesc
              refine ⟨descEvs, ?_, hdf⟩
              rw [h4, h3, h2, h1]
              simp [List.append_assoc]

theorem c5_ordering_law_witness :
    (isAbsStr "/data/show" = true ∧
     fsLookup fsShow (pathComps "/data/show") = some NodeType.dir ∧
     delete_from_filesystem fsShow "/w.torrent" "/s.torrent" "/data/show"
        ["S01/e1.mkv", "S01/e2.mkv"] =
      .ok ⟨⟨[(["data"], NodeType.dir)], []⟩,
           [Ev.rmFile ["data", "show", "S01", "e1.mkv"],
            Ev.rmFile ["data", "show", "S01", "e2.mkv"],
            Ev.rmDir ["data", "show", "S01"],
            Ev.rmDir ["data", "show"]]⟩) ∧
    ((∃ descEvs,
        (⟨⟨[(["data"], NodeType.dir)], []⟩,
          [Ev.rmFile ["data", "show", "S01", "e1.mkv"],
           Ev.rmFile ["data", "show", "S01", "e2.mkv"],
           Ev.rmDir ["data", "show", "S01"],
           Ev.rmDir ["data", "show"]]⟩ : St).evs =
          descEvs ++
          (["S01/e1.mkv", "S01/e2.mkv"] : List String).map (fun f =>
            Ev.rmFile (canonComps [] (pathComps "/data/show" ++ pathComps f))) ++
          (dirsOf ["S01/e1.mkv", "S01/e2.mkv"]).map (fun d =>
            Ev.rmDir (canonComps [] (pathComps "/data/show" ++ d))) ++
          [Ev.rmDir (pathComps "/data/show")] ∧
        ∀ e ∈ descEvs, ∃ p, e = Ev.rmFile p) ∧
     (dirsOf ["S01/e1.mkv", "S01/e2.mkv"]).Pairwise
       (fun d1 d2 => osLen d2 ≤ osLen d1) ∧
     (dirsOf ["S01/e1.mkv", "S01/e2.mkv"]).Pairwise
       (fun d1 d2 => ¬(d1 ≠ d2 ∧ listStartsWith d2 d1 = true))) :=
  ⟨⟨by decide, by decide, by decide⟩,
   c5_ordering_law fsShow "/w.torrent" "/s.torrent" "/data/show"
     ["S01/e1.mkv", "S01/e2.mkv"]
     ⟨⟨[(["data"], NodeType.dir)], []⟩,
      [Ev.rmFile ["data", "show", "S01", "e1.mkv"],
       Ev.rmFile ["data", "show", "S01", "e2.mkv"],
       Ev.rmDir ["data", "show", "S01"],
       Ev.rmDir ["data", "show"]]⟩
     (by decide) (by decide) (by decide)⟩
